import Mathlib

/-!
Verification development for the Backblaze drive-statistics aggregator.

The program folds daily per-drive CSV snapshot records into an in-memory
aggregate (model name → model stats → serial number → drive stats), merges
the per-worker aggregates, and exports one row per (model, serial) pair.
The definitions below are a shallow embedding of the source:

* `ReadDate`, `ReadCapacity`, `UpdateCapacity`, `UpdateFailureDate`,
  `foldRow`/`foldPre`/`foldPost` embed `ReadRawStats` and its helpers;
* `processRows`/`processFiles` embed the per-file row loop and the worker
  loop that absorbs a file-level exception and moves to the next file;
* `mergeDrive`/`mergeModel`/`MergeParsedStats` embed the reducer;
* `MakeParsedStatsRow` embeds the exporter's row construction;
* `get_next_file_path`/`dispenseTrace` embed the work-queue dispenser.

Hash maps are embedded as association lists (`alFind?`, `alUpsert`); the
properties proved are per-key observations, which are independent of the
hash map's iteration order.  Definitions whose name starts with `spec`
follow the specification's words and are compared against the code-derived
definitions in refinement theorems.
-/

set_option maxRecDepth 40000

namespace BB

/-! ## Global constants (from the header) -/

def kFirstYear : Nat := 2013
def kLastYear : Nat := 2023
def kMonthPerYear : Nat := 12
def kCounterCount : Nat := (kLastYear - kFirstYear + 1) * kMonthPerYear
def kMinCapacityBytes : Nat := 40 * 1000 * 1000 * 1000
def kMaxCapacityBytes : Nat := 40 * 1000 * 1000 * 1000 * 1000
def kOutputPrefixCells : List String :=
  ["model", "serial_number", "capacity_bytes", "initial_power_on_hour"]

/-! ## Dates (`std::chrono::year_month_day`) -/

structure Date where
  year : Nat
  month : Nat
  day : Nat
deriving DecidableEq, Repr

/-- Lexicographic comparison of `year_month_day`, as used by `operator>`. -/
def dateLtB (a b : Date) : Bool :=
  decide (a.year < b.year) ||
    (decide (a.year = b.year) &&
      (decide (a.month < b.month) ||
        (decide (a.month = b.month) && decide (a.day < b.day))))

/-- `new_date > failure_date` where the right side is an `optional<Date>`:
an empty optional compares below every date. -/
def dateGtOpt (nd : Date) (o : Option Date) : Bool :=
  match o with
  | none => true
  | some d => dateLtB d nd

def isLeap (y : Nat) : Bool :=
  (decide (y % 4 = 0) && decide (y % 100 ≠ 0)) || decide (y % 400 = 0)

def daysInMonth (y m : Nat) : Nat :=
  if m = 2 then (if isLeap y then 29 else 28)
  else if m = 4 ∨ m = 6 ∨ m = 9 ∨ m = 11 then 30
  else 31

/-- `year_month_day::ok()`: month in 1..12 and day in 1..last day of month. -/
def Date.ok (date : Date) : Bool :=
  decide (1 ≤ date.month) && decide (date.month ≤ 12) &&
    decide (1 ≤ date.day) && decide (date.day ≤ daysInMonth date.year date.month)

/-! ## String canonicalization -/

/-- `isspace` for the default locale. -/
def isSpaceChar (c : Char) : Bool :=
  c = ' ' || c = '\t' || c = '\n' || c = '\x0b' || c = '\x0c' || c = '\r'

/-- `remove_if`/`erase` over the whole string: keeps every non-whitespace
character, in order. -/
def RemoveSpaces (str : String) : String :=
  String.mk (str.data.filter (fun ch => !isSpaceChar ch))

/-- `ReadId` fetches a cell (external CSV reader) and removes whitespace. -/
def ReadId (cell : String) : String := RemoveSpaces cell

/-- Modelled from the spec: canonicalization "by trimming whitespace
(leading and trailing whitespace removed, interior characters preserved)",
for comparison with the code's `RemoveSpaces`. -/
def specTrim (s : String) : String :=
  String.mk (((s.data.dropWhile isSpaceChar).reverse.dropWhile isSpaceChar).reverse)

/-! ## Association lists standing in for the hash maps -/

/-- First value stored under key `k` (`map.find`). -/
def alFind? {β : Type} (k : String) : List (String × β) → Option β
  | [] => none
  | kv :: rest => if kv.1 = k then some kv.2 else alFind? k rest

/-- `map[k]` / `try_emplace(k, d)` followed by in-place mutation `f`:
the value under `k` becomes `f` of the existing value, or `f d` if the key
was absent. -/
def alUpsert {β : Type} (k : String) (d : β) (f : β → β) : List (String × β) → List (String × β)
  | [] => [(k, f d)]
  | kv :: rest => if kv.1 = k then (kv.1, f kv.2) :: rest else kv :: alUpsert k d f rest

/-- A loop `for kv in other: upsert into acc`, the shape of both levels of
`MergeParsedStats`. -/
def alFoldMerge {β : Type} (f : β → β → β) (dflt : β → β)
    (acc other : List (String × β)) : List (String × β) :=
  other.foldl (fun m kv => alUpsert kv.1 (dflt kv.2) (fun v => f v kv.2) m) acc

/-! ## The aggregate data model -/

structure DriveStats where
  drive_day : List Nat
  initial_power_on_hour : Option Nat
  failure_date : Option Date
deriving DecidableEq, Repr

/-- `DriveStats(power_on_hour)`: zeroed counters, no failure date. -/
def DriveStats.mk0 (power_on_hour : Option Nat) : DriveStats :=
  { drive_day := List.replicate kCounterCount 0
    initial_power_on_hour := power_on_hour
    failure_date := none }

structure ModelStats where
  drives : List (String × DriveStats)
  capacity_bytes : Option Nat
deriving DecidableEq, Repr

def ModelStats.empty : ModelStats := { drives := [], capacity_bytes := none }

abbrev ModelMap := List (String × ModelStats)

/-! ## Reading and updating fields (`ReadDate`, `ReadCapacity`, ...) -/

/-- `ReadDate`: year must lie in the supported range and the date must be a
valid calendar date; otherwise the row fails with an exception. -/
def ReadDate (y m d : Nat) : Except String Date :=
  if y < kFirstYear ∨ y > kLastYear then Except.error "Invalid date"
  else if !(Date.ok ⟨y, m, d⟩) then Except.error "Invalid date"
  else Except.ok ⟨y, m, d⟩

def exceptIsError {ε α : Type} : Except ε α → Bool
  | Except.error _ => true
  | Except.ok _ => false

/-- `ReadCapacity`: negative raw readings and readings outside the plausible
40 GB – 40 TB range yield an empty optional. -/
def ReadCapacity (raw : Int) : Option Nat :=
  if raw < 0 then none
  else if raw.toNat < kMinCapacityBytes ∨ raw.toNat > kMaxCapacityBytes then none
  else some raw.toNat

/-- `new_capacity > capacity_bytes` with an `optional` right-hand side. -/
def natGtOpt (v : Nat) (o : Option Nat) : Bool :=
  match o with
  | none => true
  | some x => decide (x < v)

/-- `UpdateCapacity`: replace the stored capacity only when the new value
strictly exceeds it (an absent value compares below everything). -/
def UpdateCapacity (model_stats : ModelStats) (new_capacity : Nat) : ModelStats :=
  if natGtOpt new_capacity model_stats.capacity_bytes then
    { model_stats with capacity_bytes := some new_capacity }
  else model_stats

/-- `UpdateFailureDate`: replace the stored failure date only when the new
date is strictly later (an absent date compares below everything). -/
def UpdateFailureDate (drive_stats : DriveStats) (new_date : Date) : DriveStats :=
  if dateGtOpt new_date drive_stats.failure_date then
    { drive_stats with failure_date := some new_date }
  else drive_stats

/-! ## Folding one record (`ReadRawStats` row loop) -/

/-- One parsed CSV row, with the external tokenizer already applied.
`power_on_hour` models the `smart_9_raw` cell (`none` for an empty cell). -/
structure RawRow where
  model : String
  serial : String
  capacity_bytes : Int
  power_on_hour : Option Nat
  year : Nat
  month : Nat
  day : Nat
  failure : Int

/-- `(year - kFirstYear) * kMonthPerYear + (month - 1)`. -/
def dayIdx (date : Date) : Nat :=
  (date.year - kFirstYear) * kMonthPerYear + (date.month - 1)

/-- `++drive_day[i]`. -/
def incAt (l : List Nat) (i : Nat) : List Nat := l.set i (l.getD i 0 + 1)

/-- The effects of one row that precede the date check, in source order:
find-or-create the model, apply a plausible capacity reading, find-or-create
the drive (capturing the lazy initial power-on-hour on creation only). -/
def foldPre (map : ModelMap) (row : RawRow) : ModelMap :=
  alUpsert (ReadId row.model) ModelStats.empty
    (fun ms =>
      let ms1 :=
        match ReadCapacity row.capacity_bytes with
        | some c => UpdateCapacity ms c
        | none => ms
      { ms1 with
          drives := alUpsert (ReadId row.serial) (DriveStats.mk0 row.power_on_hour)
            (fun ds => ds) ms1.drives })
    map

/-- The per-drive effects after a successful date check: increment the
month counter and record a failure event. -/
def driveFold (row : RawRow) (date : Date) (ds : DriveStats) : DriveStats :=
  let ds1 := { ds with drive_day := incAt ds.drive_day (dayIdx date) }
  if row.failure ≠ 0 then UpdateFailureDate ds1 date else ds1

def foldPost (map : ModelMap) (row : RawRow) (date : Date) : ModelMap :=
  alUpsert (ReadId row.model) ModelStats.empty
    (fun ms =>
      { ms with
          drives := alUpsert (ReadId row.serial) (DriveStats.mk0 row.power_on_hour)
            (driveFold row date) ms.drives })
    map

/-- One iteration of the row loop of `ReadRawStats`.  The second component
is the exception escaping the row, if any; the first component is the map
as mutated so far (the pre-date effects persist on failure). -/
def foldRow (map : ModelMap) (row : RawRow) : ModelMap × Option String :=
  match ReadDate row.year row.month row.day with
  | Except.error e => (foldPre map row, some e)
  | Except.ok date => (foldPost (foldPre map row) row date, none)

/-- The row loop over one file: an exception aborts the remaining rows of
this file (`true` in the second component), keeping the rows already
folded. -/
def processRows : ModelMap → List RawRow → ModelMap × Bool
  | map, [] => (map, false)
  | map, row :: rest =>
    match foldRow map row with
    | (m, some _) => (m, true)
    | (m, none) => processRows m rest

/-- The worker loop: each file is processed in a `try`/`catch`, so a
file-level failure is absorbed and the worker moves to the next file. -/
def processFiles : ModelMap → List (List RawRow) → ModelMap
  | map, [] => map
  | map, f :: fs => processFiles (processRows map f).1 fs

/-! ## The reducer (`MergeParsedStats`) -/

/-- Per-drive merge: element-wise counter sum, then the failure-date update
applied with `other`'s date (keeping the later one). -/
def mergeDrive (acc other : DriveStats) : DriveStats :=
  let ds := { acc with drive_day := List.zipWith (· + ·) acc.drive_day other.drive_day }
  match other.failure_date with
  | none => ds
  | some fd => UpdateFailureDate ds fd

/-- `other_capacity_bytes > capacity_bytes` on two `optional` values. -/
def cppOptGt (a b : Option Nat) : Bool :=
  match a, b with
  | none, _ => false
  | some _, none => true
  | some x, some y => decide (y < x)

/-- Per-model merge: capacity maximum (absent below present), then a
drive-level loop that `try_emplace`s each of `other`'s drives (a newly
created drive copies `other`'s initial power-on-hour). -/
def mergeModel (acc other : ModelStats) : ModelStats :=
  { capacity_bytes :=
      if cppOptGt other.capacity_bytes acc.capacity_bytes then other.capacity_bytes
      else acc.capacity_bytes
    drives :=
      alFoldMerge mergeDrive (fun od => DriveStats.mk0 od.initial_power_on_hour)
        acc.drives other.drives }

/-- `MergeParsedStats(map, other)`: fold every model of `other` into `map`. -/
def MergeParsedStats (map other : ModelMap) : ModelMap :=
  alFoldMerge mergeModel (fun _ => ModelStats.empty) map other

/-! ## Export row construction (`MakeParsedStatsRow`) -/

def optNatToString (o : Option Nat) : String :=
  match o with
  | none => ""
  | some v => toString v

def dateToString (d : Date) : String :=
  toString d.year ++ "-" ++ toString d.month ++ "-" ++ toString d.day

def optDateToString (o : Option Date) : String :=
  match o with
  | none => ""
  | some d => dateToString d

/-- One exported row: model, serial, capacity, initial power-on-hour, the
single failure-date cell, then one cell per supported (year, month) pair
with zero rendered as the empty string. -/
def MakeParsedStatsRow (model_name : String) (model_stats : ModelStats)
    (serial_number : String) (drive_stats : DriveStats) : List String :=
  [model_name, serial_number, optNatToString model_stats.capacity_bytes,
    optNatToString drive_stats.initial_power_on_hour,
    optDateToString drive_stats.failure_date]
  ++ drive_stats.drive_day.map (fun number => if number = 0 then "" else toString number)

/-- Modelled from the spec: `max_failure_width`, "the largest
failure-date-sequence length observed on any single drive in the store".
At this revision a drive stores at most one failure date, so a drive's
sequence length is 0 or 1. -/
def specMaxFailureWidth (m : ModelMap) : Nat :=
  m.foldl
    (fun acc kv =>
      kv.2.drives.foldl
        (fun a dv => max a (match dv.2.failure_date with | none => 0 | some _ => 1)) acc)
    0

/-! ## The work-queue dispenser (`get_next_file_path`) -/

def fileNameOf (p : String) : String :=
  String.mk ((p.data.reverse.takeWhile (fun c => !(c = '/'))).reverse)

/-- `std::filesystem::path::extension()` of a filename. -/
def extensionOf (f : String) : String :=
  if f = "." ∨ f = ".." then ""
  else
    match f.data.reverse.findIdx? (fun c => c = '.') with
    | none => ""
    | some r =>
      let i := f.data.length - 1 - r
      if i = 0 then "" else String.mk (f.data.drop i)

def isCsvPath (p : String) : Bool := extensionOf (fileNameOf p) == ".csv"

/-- One call to the dispenser: advance the shared directory iterator past
non-matching entries; the empty path signals exhaustion. -/
def get_next_file_path : List String → String × List String
  | [] => ("", [])
  | p :: rest => if isCsvPath p then (p, rest) else get_next_file_path rest

/-- The sequence of paths handed out by `n` successive calls. -/
def dispenseTrace : List String → Nat → List String
  | _, 0 => []
  | files, Nat.succ n =>
    (get_next_file_path files).1 :: dispenseTrace (get_next_file_path files).2 n

/-! ## Per-key observations of an aggregate store -/

def capacityAt (m : ModelMap) (model : String) : Option (Option Nat) :=
  (alFind? model m).map (fun ms => ms.capacity_bytes)

def driveAt (m : ModelMap) (model serial : String) : Option DriveStats :=
  (alFind? model m).bind (fun ms => alFind? serial ms.drives)

def countersAt (m : ModelMap) (model serial : String) : Option (List Nat) :=
  (driveAt m model serial).map (fun ds => ds.drive_day)

def failureAt (m : ModelMap) (model serial : String) : Option (Option Date) :=
  (driveAt m model serial).map (fun ds => ds.failure_date)

def pohAt (m : ModelMap) (model serial : String) : Option (Option Nat) :=
  (driveAt m model serial).map (fun ds => ds.initial_power_on_hour)

/-- The drive's failure-date state read as a sequence, for comparison with
the spec's "ascending sequence of failure dates". -/
def fdSeqOf (o : Option Date) : List Date :=
  match o with
  | none => []
  | some d => [d]

/-! ## Well-formedness of a store, as established by construction -/

abbrev WFdrives (drives : List (String × DriveStats)) : Prop :=
  (drives.map Prod.fst).Nodup ∧ ∀ kv ∈ drives, kv.2.drive_day.length = kCounterCount

abbrev WFmap (m : ModelMap) : Prop :=
  (m.map Prod.fst).Nodup ∧ ∀ kv ∈ m, WFdrives kv.2.drives

/-! ## Spec-side combination operators (for refinement statements) -/

/-- Modelled from the spec: "the maximum of acc's previous capacity and
other's capacity, where an absent optional capacity compares below every
present value". -/
def maxOptNat (a b : Option Nat) : Option Nat :=
  match a, b with
  | none, b => b
  | some x, none => some x
  | some x, some y => some (max x y)

/-- Modelled from the spec's tie-break rule for two optional failure dates:
keep the later one, an absent date losing to any present date. -/
def specMaxFd (a b : Option Date) : Option Date :=
  match a, b with
  | none, b => b
  | some x, none => some x
  | some x, some y => some (if dateLtB x y then y else x)

/-- Code-side capacity combination used by the reducer. -/
def optCapMax (acc other : Option Nat) : Option Nat :=
  if cppOptGt other acc then other else acc

/-- Code-side failure-date combination used by the reducer. -/
def optFdMax (acc other : Option Date) : Option Date :=
  match other with
  | none => acc
  | some f => if dateGtOpt f acc then some f else acc

/-! ## Observation-level combination of two stores under the reducer -/

/-- How the reducer combines the capacity observed at one model key. -/
def capCombineObs (a b : Option (Option Nat)) : Option (Option Nat) :=
  match a, b with
  | x, none => x
  | none, some y => some y
  | some x, some y => some (optCapMax x y)

/-- How the reducer combines the counters observed at one drive key. -/
def ctrCombineObs (a b : Option (List Nat)) : Option (List Nat) :=
  match a, b with
  | x, none => x
  | none, some y => some y
  | some x, some y => some (List.zipWith (· + ·) x y)

/-- How the reducer combines the failure-date state observed at one drive
key (`specMaxFd` is the spec's "keep the later date" rule). -/
def fdCombineObs (a b : Option (Option Date)) : Option (Option Date) :=
  match a, b with
  | x, none => x
  | none, some y => some y
  | some x, some y => some (specMaxFd x y)

/-! ## Concrete example inputs used by counterexamples and witnesses -/

def zeroCounters : List Nat := List.replicate kCounterCount 0

def dsC1A : DriveStats :=
  { drive_day := zeroCounters, initial_power_on_hour := none,
    failure_date := some ⟨2020, 1, 10⟩ }

def dsC1B : DriveStats :=
  { drive_day := zeroCounters, initial_power_on_hour := none,
    failure_date := some ⟨2020, 1, 5⟩ }

def storeC1A : ModelMap := [("m", { drives := [("s", dsC1A)], capacity_bytes := none })]

def storeC1B : ModelMap := [("m", { drives := [("s", dsC1B)], capacity_bytes := none })]

def dsC2A : DriveStats :=
  { drive_day := zeroCounters, initial_power_on_hour := some 100, failure_date := none }

def dsC2B : DriveStats :=
  { drive_day := zeroCounters, initial_power_on_hour := some 200, failure_date := none }

def storeC2A : ModelMap :=
  [("m", { drives := [("s", dsC2A)], capacity_bytes := some 41000000000 })]

def storeC2B : ModelMap :=
  [("m", { drives := [("s", dsC2B)], capacity_bytes := some 42000000000 })]

def rowGoodC3 : RawRow :=
  { model := "m", serial := "s1", capacity_bytes := 0, power_on_hour := none,
    year := 2019, month := 5, day := 2, failure := 0 }

def rowBadC3 : RawRow :=
  { model := "m", serial := "s2", capacity_bytes := 0, power_on_hour := none,
    year := 2019, month := 13, day := 1, failure := 0 }

def rowTailC3 : RawRow :=
  { model := "m", serial := "s3", capacity_bytes := 0, power_on_hour := none,
    year := 2019, month := 6, day := 3, failure := 0 }

def dsC4 : DriveStats :=
  { drive_day := zeroCounters, initial_power_on_hour := none, failure_date := none }

def msC4 : ModelStats := { drives := [("s", dsC4)], capacity_bytes := none }

def storeC4 : ModelMap := [("m", msC4)]

def rowC5a : RawRow :=
  { model := "m", serial := "s", capacity_bytes := -5, power_on_hour := none,
    year := 2019, month := 5, day := 2, failure := 0 }

def rowC5b : RawRow :=
  { model := "m", serial := "s", capacity_bytes := 4000000000000, power_on_hour := none,
    year := 2019, month := 5, day := 2, failure := 0 }

def storeC6A : ModelMap := [("m", { drives := [], capacity_bytes := some 41000000000 })]

def msC6B : ModelStats := { drives := [], capacity_bytes := some 42000000000 }

def storeC6B : ModelMap := [("m", msC6B)]

def dsC7 : DriveStats :=
  { drive_day := zeroCounters, initial_power_on_hour := some 5, failure_date := none }

def mapC7 : ModelMap := [("m", { drives := [("s", dsC7)], capacity_bytes := none })]

def rowC7 : RawRow :=
  { model := "m", serial := "s", capacity_bytes := 0, power_on_hour := some 99,
    year := 2019, month := 5, day := 2, failure := 0 }

def dsC7B : DriveStats :=
  { drive_day := zeroCounters, initial_power_on_hour := some 200, failure_date := none }

def storeC7B : ModelMap := [("m", { drives := [("s", dsC7B)], capacity_bytes := none })]

def rowC8 : RawRow :=
  { model := " A B ", serial := "s1", capacity_bytes := 0, power_on_hour := none,
    year := 2019, month := 5, day := 2, failure := 0 }

def filesC9 : List String := ["a.csv", "b.txt", "c.csv"]

def rowC10 : RawRow :=
  { model := "m", serial := "s", capacity_bytes := 4000787030016, power_on_hour := some 42,
    year := 2019, month := 13, day := 1, failure := 1 }

/-! # Lemmas -/

/-! ## Association-list lemmas -/

theorem alFind?_alUpsert_self {β : Type} (k : String) (d : β) (f : β → β)
    (m : List (String × β)) :
    alFind? k (alUpsert k d f m) = some (f ((alFind? k m).getD d)) := by
  induction m with
  | nil => simp [alFind?, alUpsert]
  | cons kv rest ih =>
    by_cases h : kv.1 = k
    · simp [alFind?, alUpsert, h]
    · simp [alFind?, alUpsert, h, ih]

theorem alFind?_alUpsert_ne {β : Type} {k k' : String} (h : k ≠ k') (d : β) (f : β → β)
    (m : List (String × β)) :
    alFind? k (alUpsert k' d f m) = alFind? k m := by
  have h' : k' ≠ k := Ne.symm h
  induction m with
  | nil => simp [alFind?, alUpsert, h']
  | cons kv rest ih =>
    by_cases hk : kv.1 = k'
    · simp [alFind?, alUpsert, hk, h']
    · by_cases hk2 : kv.1 = k
      · simp [alFind?, alUpsert, hk, hk2, h]
      · simp [alFind?, alUpsert, hk, hk2, ih]

theorem alFind?_eq_none_of_not_mem {β : Type} {k : String} {m : List (String × β)}
    (h : k ∉ m.map Prod.fst) : alFind? k m = none := by
  induction m with
  | nil => rfl
  | cons kv rest ih =>
    simp only [List.map_cons, List.mem_cons] at h
    push_neg at h
    have h1 : kv.1 ≠ k := Ne.symm h.1
    simp [alFind?, h1, ih h.2]

theorem alFind?_mem {β : Type} {k : String} {v : β} {m : List (String × β)}
    (h : alFind? k m = some v) : (k, v) ∈ m := by
  induction m with
  | nil => simp [alFind?] at h
  | cons kv rest ih =>
    by_cases hk : kv.1 = k
    · have hv : kv.2 = v := by simp [alFind?, hk] at h; exact h
      have hkv : kv = (k, v) := by
        obtain ⟨a, b⟩ := kv
        simp only at hk hv
        rw [hk, hv]
      rw [hkv] at *
      exact List.mem_cons_self _ _
    · have hrest : alFind? k rest = some v := by simpa [alFind?, hk] using h
      exact List.mem_cons_of_mem _ (ih hrest)

theorem alFoldMerge_find_none {β : Type} (f : β → β → β) (dflt : β → β) {k : String}
    {other : List (String × β)} (h : alFind? k other = none) (acc : List (String × β)) :
    alFind? k (alFoldMerge f dflt acc other) = alFind? k acc := by
  induction other generalizing acc with
  | nil => rfl
  | cons kv rest ih =>
    have hne : kv.1 ≠ k := by
      intro hc
      simp [alFind?, hc] at h
    have hrest : alFind? k rest = none := by
      simpa [alFind?, hne] using h
    have step : alFoldMerge f dflt acc (kv :: rest)
        = alFoldMerge f dflt (alUpsert kv.1 (dflt kv.2) (fun v => f v kv.2) acc) rest := rfl
    rw [step, ih hrest, alFind?_alUpsert_ne (fun hc => hne hc.symm)]

theorem alFoldMerge_find_some {β : Type} (f : β → β → β) (dflt : β → β) {k : String}
    {other : List (String × β)} (hn : (other.map Prod.fst).Nodup) {bv : β}
    (h : alFind? k other = some bv) (acc : List (String × β)) :
    alFind? k (alFoldMerge f dflt acc other) = some (f ((alFind? k acc).getD (dflt bv)) bv) := by
  induction other generalizing acc with
  | nil => simp [alFind?] at h
  | cons kv rest ih =>
    have step : alFoldMerge f dflt acc (kv :: rest)
        = alFoldMerge f dflt (alUpsert kv.1 (dflt kv.2) (fun v => f v kv.2) acc) rest := rfl
    simp only [List.map_cons, List.nodup_cons] at hn
    by_cases hk : kv.1 = k
    · have hbv : bv = kv.2 := by
        rw [show alFind? k (kv :: rest) = some kv.2 from by simp [alFind?, hk]] at h
        exact (Option.some.inj h).symm
      subst hbv hk
      have hrest : alFind? kv.1 rest = none :=
        alFind?_eq_none_of_not_mem hn.1
      rw [step, alFoldMerge_find_none f dflt hrest, alFind?_alUpsert_self]
    · have hrest : alFind? k rest = some bv := by
        simpa [alFind?, hk] using h
      rw [step, ih hn.2 hrest, alFind?_alUpsert_ne (fun hc => hk hc.symm)]

/-! ## Small arithmetic and order lemmas -/

theorem dateLtB_asymm {a b : Date} (h : dateLtB a b = true) : dateLtB b a = false := by
  cases a with
  | mk ya ma da =>
    cases b with
    | mk yb mb db =>
      simp only [dateLtB, Bool.or_eq_true, Bool.and_eq_true, decide_eq_true_eq] at h ⊢
      simp only [Bool.or_eq_false_iff, Bool.and_eq_false_iff, decide_eq_false_iff_not]
      omega

theorem dateLtB_antisymm {a b : Date} (hab : dateLtB a b = false) (hba : dateLtB b a = false) :
    a = b := by
  cases a with
  | mk ya ma da =>
    cases b with
    | mk yb mb db =>
      simp only [dateLtB, Bool.or_eq_false_iff, Bool.and_eq_false_iff,
        decide_eq_false_iff_not] at hab hba
      have : ya = yb ∧ ma = mb ∧ da = db := by omega
      simp [this.1, this.2.1, this.2.2]

theorem optFdMax_comm (a b : Option Date) : optFdMax a b = optFdMax b a := by
  cases a with
  | none =>
    cases b with
    | none => rfl
    | some f => simp [optFdMax, dateGtOpt]
  | some x =>
    cases b with
    | none => simp [optFdMax, dateGtOpt]
    | some y =>
      simp only [optFdMax, dateGtOpt]
      by_cases hxy : dateLtB x y = true
      · simp [hxy, dateLtB_asymm hxy]
      · have hxy' : dateLtB x y = false := by simpa using hxy
        by_cases hyx : dateLtB y x = true
        · simp [hxy', hyx]
        · have hyx' : dateLtB y x = false := by simpa using hyx
          simp [hxy', hyx', dateLtB_antisymm hxy' hyx']

theorem optFdMax_eq_specMaxFd (a b : Option Date) : optFdMax a b = specMaxFd a b := by
  cases a with
  | none =>
    cases b with
    | none => rfl
    | some f => simp [optFdMax, specMaxFd, dateGtOpt]
  | some x =>
    cases b with
    | none => rfl
    | some y =>
      simp only [optFdMax, specMaxFd, dateGtOpt]
      by_cases hxy : dateLtB x y = true <;> simp [hxy]

theorem optCapMax_comm (a b : Option Nat) : optCapMax a b = optCapMax b a := by
  cases a with
  | none => cases b <;> simp [optCapMax, cppOptGt]
  | some x =>
    cases b with
    | none => simp [optCapMax, cppOptGt]
    | some y =>
      simp only [optCapMax, cppOptGt, decide_eq_true_eq]
      rcases Nat.lt_trichotomy x y with h | h | h
      · simp [h, Nat.lt_asymm h]
      · simp [h]
      · simp [h, Nat.lt_asymm h]

theorem optCapMax_eq_maxOptNat (a b : Option Nat) : optCapMax a b = maxOptNat a b := by
  cases a with
  | none => cases b <;> simp [optCapMax, cppOptGt, maxOptNat]
  | some x =>
    cases b with
    | none => simp [optCapMax, cppOptGt, maxOptNat]
    | some y =>
      simp only [optCapMax, cppOptGt, maxOptNat, decide_eq_true_eq]
      rcases Nat.lt_or_ge x y with h | h
      · simp [h, Nat.max_eq_right (Nat.le_of_lt h)]
      · simp [Nat.not_lt.mpr h, Nat.max_eq_left h]

theorem zipWith_add_replicate_left {l : List Nat} {n : Nat} (h : l.length = n) :
    List.zipWith (· + ·) (List.replicate n 0) l = l := by
  subst h
  induction l with
  | nil => rfl
  | cons a l ih => simp [List.replicate_succ, ih]

theorem daysInMonth_le_31 (y m : Nat) : daysInMonth y m ≤ 31 := by
  unfold daysInMonth
  split
  · split <;> omega
  · split <;> omega

/-! ## Field-level facts about the combinators -/

theorem mergeDrive_drive_day (x y : DriveStats) :
    (mergeDrive x y).drive_day = List.zipWith (· + ·) x.drive_day y.drive_day := by
  unfold mergeDrive
  cases y.failure_date with
  | none => rfl
  | some fd =>
    simp only [UpdateFailureDate]
    split <;> rfl

theorem mergeDrive_poh (x y : DriveStats) :
    (mergeDrive x y).initial_power_on_hour = x.initial_power_on_hour := by
  unfold mergeDrive
  cases y.failure_date with
  | none => rfl
  | some fd =>
    simp only [UpdateFailureDate]
    split <;> rfl

theorem mergeDrive_fd (x y : DriveStats) :
    (mergeDrive x y).failure_date = optFdMax x.failure_date y.failure_date := by
  unfold mergeDrive optFdMax
  cases y.failure_date with
  | none => rfl
  | some fd =>
    simp only [UpdateFailureDate]
    split <;> rfl

theorem mergeModel_capacity (a b : ModelStats) :
    (mergeModel a b).capacity_bytes = optCapMax a.capacity_bytes b.capacity_bytes := rfl

theorem UpdateCapacity_drives (ms : ModelStats) (c : Nat) :
    (UpdateCapacity ms c).drives = ms.drives := by
  unfold UpdateCapacity
  split <;> rfl

theorem driveFold_poh (row : RawRow) (date : Date) (ds : DriveStats) :
    (driveFold row date ds).initial_power_on_hour = ds.initial_power_on_hour := by
  unfold driveFold
  split
  · simp only [UpdateFailureDate]
    split <;> rfl
  · rfl

theorem DriveStats_mk0_len (p : Option Nat) :
    (DriveStats.mk0 p).drive_day.length = kCounterCount := by
  simp [DriveStats.mk0]

/-! ## Lookup characterization of the reducer -/

theorem MergeParsedStats_find (A B : ModelMap) (hB : (B.map Prod.fst).Nodup) (model : String) :
    alFind? model (MergeParsedStats A B) =
      match alFind? model B with
      | none => alFind? model A
      | some bs => some (mergeModel ((alFind? model A).getD ModelStats.empty) bs) := by
  cases h : alFind? model B with
  | none => exact alFoldMerge_find_none mergeModel _ h A
  | some bs => exact alFoldMerge_find_some mergeModel _ hB h A

theorem mergeModel_find_drive (a b : ModelStats) (hb : (b.drives.map Prod.fst).Nodup)
    (serial : String) :
    alFind? serial (mergeModel a b).drives =
      match alFind? serial b.drives with
      | none => alFind? serial a.drives
      | some bd =>
        some (mergeDrive ((alFind? serial a.drives).getD
          (DriveStats.mk0 bd.initial_power_on_hour)) bd) := by
  have hdr : (mergeModel a b).drives
      = alFoldMerge mergeDrive (fun od => DriveStats.mk0 od.initial_power_on_hour)
          a.drives b.drives := rfl
  rw [hdr]
  cases h : alFind? serial b.drives with
  | none => exact alFoldMerge_find_none mergeDrive _ h a.drives
  | some bd => exact alFoldMerge_find_some mergeDrive _ hb h a.drives

theorem driveAt_merge (A B : ModelMap) (hB : WFmap B) (model serial : String) :
    driveAt (MergeParsedStats A B) model serial =
      match alFind? model B with
      | none => driveAt A model serial
      | some bs =>
        match alFind? serial bs.drives with
        | none => driveAt A model serial
        | some bd =>
          some (mergeDrive ((driveAt A model serial).getD
            (DriveStats.mk0 bd.initial_power_on_hour)) bd) := by
  cases hfb : alFind? model B with
  | none =>
    simp only [driveAt, MergeParsedStats_find A B hB.1 model, hfb]
  | some bs =>
    have hbs : WFdrives bs.drives := hB.2 _ (alFind?_mem hfb)
    cases hfa : alFind? model A with
    | none =>
      simp only [driveAt, MergeParsedStats_find A B hB.1 model, hfb, hfa, Option.bind,
        Option.getD]
      rw [mergeModel_find_drive ModelStats.empty bs hbs.1 serial]
      cases hfd : alFind? serial bs.drives with
      | none => simp [ModelStats.empty, alFind?]
      | some bd => simp [ModelStats.empty, alFind?]
    | some as =>
      simp only [driveAt, MergeParsedStats_find A B hB.1 model, hfb, hfa, Option.bind,
        Option.getD]
      rw [mergeModel_find_drive as bs hbs.1 serial]
      cases hfd : alFind? serial bs.drives with
      | none => simp
      | some bd => cases alFind? serial as.drives <;> rfl

theorem capacityAt_merge (A B : ModelMap) (hB : (B.map Prod.fst).Nodup) (model : String) :
    capacityAt (MergeParsedStats A B) model =
      match alFind? model B with
      | none => capacityAt A model
      | some bs =>
        some (optCapMax (((alFind? model A).getD ModelStats.empty).capacity_bytes)
          bs.capacity_bytes) := by
  cases hfb : alFind? model B with
  | none => simp only [capacityAt, MergeParsedStats_find A B hB model, hfb]
  | some bs =>
    simp only [capacityAt, MergeParsedStats_find A B hB model, hfb]
    simp [mergeModel_capacity]

/-! ## Lookup characterization of the fold rule -/

theorem capacityAt_foldRow (map : ModelMap) (row : RawRow) :
    capacityAt (foldRow map row).1 (ReadId row.model) =
      some (match ReadCapacity row.capacity_bytes with
            | none => ((alFind? (ReadId row.model) map).getD ModelStats.empty).capacity_bytes
            | some c =>
              (UpdateCapacity ((alFind? (ReadId row.model) map).getD ModelStats.empty)
                c).capacity_bytes) := by
  cases hd : ReadDate row.year row.month row.day with
  | error e =>
    simp only [foldRow, hd]
    simp only [capacityAt, foldPre]
    rw [alFind?_alUpsert_self]
    cases hc : ReadCapacity row.capacity_bytes <;> simp [hc]
  | ok date =>
    simp only [foldRow, hd]
    simp only [capacityAt, foldPost, foldPre]
    rw [alFind?_alUpsert_self, alFind?_alUpsert_self]
    cases hc : ReadCapacity row.capacity_bytes <;> simp [hc]

theorem driveAt_foldPre (map : ModelMap) (row : RawRow) (model serial : String) :
    driveAt (foldPre map row) model serial =
      if model = ReadId row.model ∧ serial = ReadId row.serial then
        some ((driveAt map model serial).getD (DriveStats.mk0 row.power_on_hour))
      else driveAt map model serial := by
  by_cases hm : model = ReadId row.model
  · by_cases hs : serial = ReadId row.serial
    · rw [if_pos ⟨hm, hs⟩]
      subst hm
      subst hs
      simp only [driveAt, foldPre]
      rw [alFind?_alUpsert_self]
      cases hc : ReadCapacity row.capacity_bytes with
      | none =>
        simp only [hc, Option.some_bind]
        rw [alFind?_alUpsert_self]
        cases hf : alFind? (ReadId row.model) map with
        | none => simp [ModelStats.empty, alFind?]
        | some ms => simp
      | some c =>
        simp only [hc, Option.some_bind]
        rw [UpdateCapacity_drives, alFind?_alUpsert_self]
        cases hf : alFind? (ReadId row.model) map with
        | none => simp [ModelStats.empty, alFind?]
        | some ms => simp
    · rw [if_neg (fun hc => hs hc.2)]
      subst hm
      simp only [driveAt, foldPre]
      rw [alFind?_alUpsert_self]
      cases hc : ReadCapacity row.capacity_bytes with
      | none =>
        simp only [hc, Option.some_bind]
        rw [alFind?_alUpsert_ne hs]
        cases hf : alFind? (ReadId row.model) map with
        | none => simp [ModelStats.empty, alFind?]
        | some ms => simp
      | some c =>
        simp only [hc, Option.some_bind]
        rw [UpdateCapacity_drives, alFind?_alUpsert_ne hs]
        cases hf : alFind? (ReadId row.model) map with
        | none => simp [ModelStats.empty, alFind?]
        | some ms => simp
  · rw [if_neg (fun hc => hm hc.1)]
    simp only [driveAt, foldPre]
    rw [alFind?_alUpsert_ne hm]

theorem driveAt_foldPost (m : ModelMap) (row : RawRow) (date : Date) (model serial : String) :
    driveAt (foldPost m row date) model serial =
      if model = ReadId row.model ∧ serial = ReadId row.serial then
        some (driveFold row date
          ((driveAt m model serial).getD (DriveStats.mk0 row.power_on_hour)))
      else driveAt m model serial := by
  by_cases hm : model = ReadId row.model
  · by_cases hs : serial = ReadId row.serial
    · rw [if_pos ⟨hm, hs⟩]
      subst hm
      subst hs
      simp only [driveAt, foldPost]
      rw [alFind?_alUpsert_self]
      simp only [Option.some_bind]
      rw [alFind?_alUpsert_self]
      cases hf : alFind? (ReadId row.model) m with
      | none => simp [ModelStats.empty, alFind?]
      | some ms => simp
    · rw [if_neg (fun hc => hs hc.2)]
      subst hm
      simp only [driveAt, foldPost]
      rw [alFind?_alUpsert_self]
      simp only [Option.some_bind]
      rw [alFind?_alUpsert_ne hs]
      cases hf : alFind? (ReadId row.model) m with
      | none => simp [ModelStats.empty, alFind?]
      | some ms => simp
  · rw [if_neg (fun hc => hm hc.1)]
    simp only [driveAt, foldPost]
    rw [alFind?_alUpsert_ne hm]

theorem pohAt_foldRow (map : ModelMap) (row : RawRow) (model serial : String) :
    pohAt (foldRow map row).1 model serial =
      if model = ReadId row.model ∧ serial = ReadId row.serial then
        some (((driveAt map model serial).getD
          (DriveStats.mk0 row.power_on_hour)).initial_power_on_hour)
      else pohAt map model serial := by
  cases hd : ReadDate row.year row.month row.day with
  | error e =>
    simp only [foldRow, hd, pohAt, driveAt_foldPre]
    by_cases h : model = ReadId row.model ∧ serial = ReadId row.serial <;> simp [h]
  | ok date =>
    simp only [foldRow, hd, pohAt, driveAt_foldPost]
    by_cases h : model = ReadId row.model ∧ serial = ReadId row.serial
    · simp only [if_pos h, Option.map_some, Option.some.injEq, driveFold_poh]
      rw [driveAt_foldPre, if_pos h]
      simp [driveFold_poh]
    · simp only [if_neg h]
      rw [driveAt_foldPre, if_neg h]

theorem capCombineObs_none_right (a : Option (Option Nat)) : capCombineObs a none = a := by
  cases a <;> rfl

theorem ctrCombineObs_none_right (a : Option (List Nat)) : ctrCombineObs a none = a := by
  cases a <;> rfl

theorem fdCombineObs_none_right (a : Option (Option Date)) : fdCombineObs a none = a := by
  cases a <;> rfl

theorem optCapMax_none_left (b : Option Nat) : optCapMax none b = b := by
  cases b <;> rfl

theorem zipWith_add_comm (a b : List Nat) :
    List.zipWith (· + ·) a b = List.zipWith (· + ·) b a :=
  List.zipWith_comm_of_comm _ Nat.add_comm a b

theorem specMaxFd_comm (a b : Option Date) : specMaxFd a b = specMaxFd b a := by
  rw [← optFdMax_eq_specMaxFd, ← optFdMax_eq_specMaxFd, optFdMax_comm]

theorem capCombineObs_comm (a b : Option (Option Nat)) :
    capCombineObs a b = capCombineObs b a := by
  cases a <;> cases b <;> simp [capCombineObs, optCapMax_none_left, optCapMax_comm]

theorem ctrCombineObs_comm (a b : Option (List Nat)) :
    ctrCombineObs a b = ctrCombineObs b a := by
  cases a <;> cases b <;> simp [ctrCombineObs, zipWith_add_comm]

theorem fdCombineObs_comm (a b : Option (Option Date)) :
    fdCombineObs a b = fdCombineObs b a := by
  cases a <;> cases b <;> simp [fdCombineObs, specMaxFd_comm]

theorem capacityAt_merge_obs (A B : ModelMap) (hB : (B.map Prod.fst).Nodup) (model : String) :
    capacityAt (MergeParsedStats A B) model
      = capCombineObs (capacityAt A model) (capacityAt B model) := by
  rw [capacityAt_merge A B hB]
  cases hfb : alFind? model B with
  | none =>
    have hb : capacityAt B model = none := by simp [capacityAt, hfb]
    rw [hb, capCombineObs_none_right]
  | some bs =>
    have hb : capacityAt B model = some bs.capacity_bytes := by simp [capacityAt, hfb]
    rw [hb]
    cases hfa : alFind? model A with
    | none =>
      have ha : capacityAt A model = none := by simp [capacityAt, hfa]
      rw [ha]
      simp [capCombineObs, ModelStats.empty, optCapMax_none_left]
    | some as =>
      have ha : capacityAt A model = some as.capacity_bytes := by simp [capacityAt, hfa]
      rw [ha]
      simp [capCombineObs]

theorem countersAt_merge_obs (A B : ModelMap) (hB : WFmap B) (model serial : String) :
    countersAt (MergeParsedStats A B) model serial
      = ctrCombineObs (countersAt A model serial) (countersAt B model serial) := by
  rw [countersAt, driveAt_merge A B hB]
  cases hfb : alFind? model B with
  | none =>
    have hb : countersAt B model serial = none := by simp [countersAt, driveAt, hfb]
    rw [hb, ctrCombineObs_none_right]
    rfl
  | some bs =>
    cases hfd : alFind? serial bs.drives with
    | none =>
      have hb : countersAt B model serial = none := by simp [countersAt, driveAt, hfb, hfd]
      rw [hb, ctrCombineObs_none_right]
      simp [countersAt, hfd]
    | some bd =>
      have hlen : bd.drive_day.length = kCounterCount :=
        (hB.2 _ (alFind?_mem hfb)).2 _ (alFind?_mem hfd)
      have hb : countersAt B model serial = some bd.drive_day := by
        simp [countersAt, driveAt, hfb, hfd]
      rw [hb]
      cases hda : driveAt A model serial with
      | none =>
        have ha : countersAt A model serial = none := by simp [countersAt, hda]
        rw [ha]
        simp [hfd, hda, ctrCombineObs, mergeDrive_drive_day, DriveStats.mk0,
          zipWith_add_replicate_left hlen]
      | some ad =>
        have ha : countersAt A model serial = some ad.drive_day := by simp [countersAt, hda]
        rw [ha]
        simp [hfd, hda, ctrCombineObs, mergeDrive_drive_day]

theorem failureAt_merge_obs (A B : ModelMap) (hB : WFmap B) (model serial : String) :
    failureAt (MergeParsedStats A B) model serial
      = fdCombineObs (failureAt A model serial) (failureAt B model serial) := by
  rw [failureAt, driveAt_merge A B hB]
  cases hfb : alFind? model B with
  | none =>
    have hb : failureAt B model serial = none := by simp [failureAt, driveAt, hfb]
    rw [hb, fdCombineObs_none_right]
    rfl
  | some bs =>
    cases hfd : alFind? serial bs.drives with
    | none =>
      have hb : failureAt B model serial = none := by simp [failureAt, driveAt, hfb, hfd]
      rw [hb, fdCombineObs_none_right]
      simp [failureAt, hfd]
    | some bd =>
      have hb : failureAt B model serial = some bd.failure_date := by
        simp [failureAt, driveAt, hfb, hfd]
      rw [hb]
      cases hda : driveAt A model serial with
      | none =>
        have ha : failureAt A model serial = none := by simp [failureAt, hda]
        rw [ha]
        simp [hfd, hda, fdCombineObs, mergeDrive_fd, optFdMax_eq_specMaxFd,
          DriveStats.mk0, specMaxFd]
      | some ad =>
        have ha : failureAt A model serial = some ad.failure_date := by simp [failureAt, hda]
        rw [ha]
        simp [hfd, hda, fdCombineObs, mergeDrive_fd, optFdMax_eq_specMaxFd]

/-! ## The dispenser's trace -/

theorem get_next_of_filter_nil {files : List String} (h : files.filter isCsvPath = []) :
    get_next_file_path files = ("", []) := by
  induction files with
  | nil => rfl
  | cons p rest ih =>
    by_cases hp : isCsvPath p
    · simp [List.filter_cons, hp] at h
    · rw [List.filter_cons, if_neg (by simp [hp])] at h
      simp [get_next_file_path, hp, ih h]

theorem get_next_of_filter_cons {files : List String} {q : String} {qs : List String}
    (h : files.filter isCsvPath = q :: qs) :
    (get_next_file_path files).1 = q ∧
      (get_next_file_path files).2.filter isCsvPath = qs := by
  induction files with
  | nil => simp at h
  | cons p rest ih =>
    by_cases hp : isCsvPath p
    · rw [List.filter_cons, if_pos (by simp [hp])] at h
      obtain ⟨h1, h2⟩ := List.cons.inj h
      subst h1
      simp [get_next_file_path, hp, h2]
    · rw [List.filter_cons, if_neg (by simp [hp])] at h
      simpa [get_next_file_path, hp] using ih h

theorem dispenseTrace_eq (files : List String) (n : Nat) :
    dispenseTrace files n =
      (files.filter isCsvPath).take n
        ++ List.replicate (n - (files.filter isCsvPath).length) "" := by
  induction n generalizing files with
  | zero => simp [dispenseTrace]
  | succ n ih =>
    cases h : files.filter isCsvPath with
    | nil =>
      rw [show dispenseTrace files (n + 1)
          = (get_next_file_path files).1 :: dispenseTrace (get_next_file_path files).2 n
          from rfl]
      rw [get_next_of_filter_nil h]
      have hrest := ih []
      simp only [List.filter_nil, List.take_nil, List.length_nil, Nat.sub_zero,
        List.nil_append] at hrest
      simp [hrest, List.replicate_succ]
    | cons q qs =>
      obtain ⟨h1, h2⟩ := get_next_of_filter_cons h
      rw [show dispenseTrace files (n + 1)
          = (get_next_file_path files).1 :: dispenseTrace (get_next_file_path files).2 n
          from rfl]
      rw [h1, ih (get_next_file_path files).2, h2]
      simp [List.replicate_succ]

theorem filter_replicate_empty {p : String → Bool} {a : String} (h : p a = false) (n : Nat) :
    (List.replicate n a).filter p = [] := by
  induction n with
  | zero => rfl
  | succ n ih => simp [List.replicate_succ, List.filter_cons, h, ih]

theorem isCsvPath_empty_false : isCsvPath "" = false := by decide

/-! ## Whitespace removal versus trimming -/

theorem filter_dropWhile_eq {p q : Char → Bool} (hpq : ∀ a, q a = true → p a = false)
    (l : List Char) : (l.dropWhile q).filter p = l.filter p := by
  induction l with
  | nil => rfl
  | cons a t ih =>
    by_cases hq : q a = true
    · simp [List.dropWhile_cons, hq, List.filter_cons, hpq a hq, ih]
    · have hq' : q a = false := by simpa using hq
      simp [List.dropWhile_cons, hq']

/-! ## Indexing the exported row -/

theorem getD_five_append (l : List String) (a b c d e : String) (i : Nat) (dflt : String) :
    ([a, b, c, d, e] ++ l).getD (5 + i) dflt = l.getD i dflt := by
  have h : 5 + i = i + 5 := by omega
  rw [h]
  rfl

theorem getD_map_cell (l : List Nat) (f : Nat → String) (i : Nat) (hi : i < l.length)
    (dflt : String) :
    (l.map f).getD i dflt = f (l.getD i 0) := by
  induction l generalizing i with
  | nil => simp at hi
  | cons a t ih =>
    cases i with
    | zero => rfl
    | succ j =>
      have hj : j < t.length := by simpa using hi
      exact ih j hj

/-! ## The initial power-on-hour across a merge -/

theorem pohAt_merge_obs (A B : ModelMap) (hB : WFmap B) (model serial : String) :
    pohAt (MergeParsedStats A B) model serial =
      match driveAt A model serial, driveAt B model serial with
      | some ad, _ => some ad.initial_power_on_hour
      | none, some bd => some bd.initial_power_on_hour
      | none, none => none := by
  rw [pohAt, driveAt_merge A B hB]
  cases hfb : alFind? model B with
  | none =>
    have hdb : driveAt B model serial = none := by simp [driveAt, hfb]
    rw [hdb]
    cases hda : driveAt A model serial <;> simp [hda]
  | some bs =>
    cases hfd : alFind? serial bs.drives with
    | none =>
      have hdb : driveAt B model serial = none := by simp [driveAt, hfb, hfd]
      rw [hdb]
      cases hda : driveAt A model serial <;> simp [hfd, hda]
    | some bd =>
      have hdb : driveAt B model serial = some bd := by simp [driveAt, hfb, hfd]
      rw [hdb]
      cases hda : driveAt A model serial with
      | none => simp [hfd, hda, mergeDrive_poh, DriveStats.mk0]
      | some ad => simp [hfd, hda, mergeDrive_poh]

/-! # Claim theorems -/

/-- Claim C1, counterexample: the code keeps a single optional failure date
per drive, not an ascending sequence.  Merging the per-file aggregate that
recorded a failure on 2020-01-10 with the one that recorded 2020-01-05
yields the single date 2020-01-10 (in either merge order); read as a
sequence, the state is `[2020-01-10]`, not `[2020-01-05, 2020-01-10]`. -/
theorem c1_counterexample :
    failureAt (MergeParsedStats storeC1A storeC1B) "m" "s" = some (some ⟨2020, 1, 10⟩)
    ∧ failureAt (MergeParsedStats storeC1B storeC1A) "m" "s" = some (some ⟨2020, 1, 10⟩)
    ∧ fdSeqOf ((failureAt (MergeParsedStats storeC1A storeC1B) "m" "s").getD none)
        ≠ [⟨2020, 1, 5⟩, ⟨2020, 1, 10⟩] := by
  decide

/-- Claim C1, amended: each drive stores at most one failure date.  Folding
a failure replaces the stored date only by a strictly later one
(`UpdateFailureDate` computes the spec's "keep the later date" maximum),
and merging two aggregates combines the per-drive failure state by that
same maximum, so the earlier of two distinct failure dates is discarded
rather than kept in a sequence. -/
theorem c1_amended (A B : ModelMap) (hB : WFmap B) (model serial : String)
    (ds : DriveStats) (nd : Date) :
    (UpdateFailureDate ds nd).failure_date = specMaxFd ds.failure_date (some nd)
    ∧ failureAt (MergeParsedStats A B) model serial
        = fdCombineObs (failureAt A model serial) (failureAt B model serial) := by
  constructor
  · unfold UpdateFailureDate specMaxFd dateGtOpt
    cases hfd : ds.failure_date with
    | none => simp
    | some x => by_cases hx : dateLtB x nd = true <;> simp [hfd, hx]
  · exact failureAt_merge_obs A B hB model serial

theorem c1_amended_witness :
    (UpdateFailureDate dsC1B ⟨2020, 1, 10⟩).failure_date
        = specMaxFd dsC1B.failure_date (some ⟨2020, 1, 10⟩)
    ∧ failureAt (MergeParsedStats storeC1A storeC1B) "m" "s"
        = fdCombineObs (failureAt storeC1A "m" "s") (failureAt storeC1B "m" "s") :=
  c1_amended storeC1A storeC1B (by decide) "m" "s" dsC1B ⟨2020, 1, 10⟩

/-- Claim C2, counterexample: the reducer is not commutative on all
aggregate state.  With the same drive present on both sides carrying
different initial power-on-hour values, `merge A B` keeps A's value and
`merge B A` keeps B's, so the two result stores differ. -/
theorem c2_counterexample :
    pohAt (MergeParsedStats storeC2A storeC2B) "m" "s" = some (some 100)
    ∧ pohAt (MergeParsedStats storeC2B storeC2A) "m" "s" = some (some 200)
    ∧ MergeParsedStats storeC2A storeC2B ≠ MergeParsedStats storeC2B storeC2A := by
  decide

/-- Claim C2, amended: merging A into B and B into A produce identical
per-drive monthly counters, per-model capacities, and per-drive
failure-date state (at every model and serial key); the merge is not
commutative on the drive's initial power-on-hour, where the accumulator's
first-written value wins. -/
theorem c2_amended (A B : ModelMap) (hA : WFmap A) (hB : WFmap B) (model serial : String) :
    capacityAt (MergeParsedStats A B) model = capacityAt (MergeParsedStats B A) model
    ∧ countersAt (MergeParsedStats A B) model serial
        = countersAt (MergeParsedStats B A) model serial
    ∧ failureAt (MergeParsedStats A B) model serial
        = failureAt (MergeParsedStats B A) model serial := by
  refine ⟨?_, ?_, ?_⟩
  · rw [capacityAt_merge_obs A B hB.1 model, capacityAt_merge_obs B A hA.1 model,
      capCombineObs_comm]
  · rw [countersAt_merge_obs A B hB model serial, countersAt_merge_obs B A hA model serial,
      ctrCombineObs_comm]
  · rw [failureAt_merge_obs A B hB model serial, failureAt_merge_obs B A hA model serial,
      fdCombineObs_comm]

theorem c2_amended_witness :
    capacityAt (MergeParsedStats storeC2A storeC2B) "m"
        = capacityAt (MergeParsedStats storeC2B storeC2A) "m"
    ∧ countersAt (MergeParsedStats storeC2A storeC2B) "m" "s"
        = countersAt (MergeParsedStats storeC2B storeC2A) "m" "s"
    ∧ failureAt (MergeParsedStats storeC2A storeC2B) "m" "s"
        = failureAt (MergeParsedStats storeC2B storeC2A) "m" "s" :=
  c2_amended storeC2A storeC2B (by decide) (by decide) "m" "s"

/-- Claim C3, counterexample: a row with month 13 does not let processing
of the remaining rows of the same file continue.  In a file whose rows are
good, bad (month = 13), good, the third row's drive never appears in the
aggregate (although it does appear when the bad row is absent), while the
first row's drive is kept. -/
theorem c3_counterexample :
    (processRows [] [rowGoodC3, rowBadC3, rowTailC3]).2 = true
    ∧ driveAt (processRows [] [rowGoodC3, rowBadC3, rowTailC3]).1 "m" "s3" = none
    ∧ driveAt (processRows [] [rowGoodC3, rowTailC3]).1 "m" "s3" ≠ none
    ∧ driveAt (processRows [] [rowGoodC3, rowBadC3, rowTailC3]).1 "m" "s1" ≠ none := by
  decide

/-- Claim C3, amended: a row whose date has month = 13 or day = 32 is
rejected with an exception that aborts the remaining rows of that file:
the rows already folded (including the bad row's pre-date effects) are
kept, the rest of the file is skipped, and the worker absorbs the failure
and moves on to the next file, so neither the worker nor the run aborts. -/
theorem c3_amended (map : ModelMap) (row : RawRow) (rest : List RawRow)
    (h : row.month = 13 ∨ row.day = 32) :
    processRows map (row :: rest) = ((foldRow map row).1, true)
    ∧ (foldRow map row).2.isSome = true
    ∧ ∀ fs : List (List RawRow),
        processFiles map ((row :: rest) :: fs) = processFiles (foldRow map row).1 fs := by
  have herr : exceptIsError (ReadDate row.year row.month row.day) = true := by
    unfold ReadDate
    by_cases hy : row.year < kFirstYear ∨ row.year > kLastYear
    · rw [if_pos hy]
      rfl
    · rw [if_neg hy]
      have hok : Date.ok ⟨row.year, row.month, row.day⟩ = false := by
        rcases h with h13 | h32
        · simp [Date.ok, h13]
        · have h31 := daysInMonth_le_31 row.year row.month
          simp only [Date.ok, h32, Bool.and_eq_false_iff, decide_eq_false_iff_not]
          omega
      rw [hok]
      rfl
  cases hE : ReadDate row.year row.month row.day with
  | ok date =>
    rw [hE] at herr
    simp [exceptIsError] at herr
  | error e =>
    refine ⟨?_, ?_, ?_⟩
    · simp [processRows, foldRow, hE]
    · simp [foldRow, hE]
    · intro fs
      simp [processFiles, processRows, foldRow, hE]

theorem c3_amended_witness :
    processRows [] [rowBadC3, rowTailC3] = ((foldRow [] rowBadC3).1, true)
    ∧ processFiles [] ([rowBadC3, rowTailC3] :: [[rowGoodC3]])
        = processFiles (foldRow [] rowBadC3).1 [[rowGoodC3]] := by
  have h := c3_amended [] rowBadC3 [rowTailC3] (Or.inl rfl)
  exact ⟨h.1, h.2.2 [[rowGoodC3]]⟩

/-- Claim C4, counterexample: the export row always contains exactly one
failure-date cell, not `max_failure_width` of them.  For a store whose only
drive has no recorded failure, `max_failure_width` (as the spec defines it)
is 0, so the claim predicts a 136-cell row, but the code emits 137 cells
(the extra one being the empty failure-date cell). -/
theorem c4_counterexample :
    (MakeParsedStatsRow "m" msC4 "s" dsC4).length = 137
    ∧ kOutputPrefixCells.length + specMaxFailureWidth storeC4 + kCounterCount = 136
    ∧ (MakeParsedStatsRow "m" msC4 "s" dsC4).length
        ≠ kOutputPrefixCells.length + specMaxFailureWidth storeC4 + kCounterCount := by
  decide

/-- Claim C4, amended: every exported row for a (model, serial) pair
contains, after the model, serial, capacity and initial power-on-hour
cells, exactly one failure-date cell (the drive's optional failure date,
rendered empty when absent), followed by one cell per supported
(year, month) pair with zero counters rendered as empty cells. -/
theorem c4_amended (model_name : String) (model_stats : ModelStats) (serial_number : String)
    (drive_stats : DriveStats) (h : drive_stats.drive_day.length = kCounterCount) :
    (MakeParsedStatsRow model_name model_stats serial_number drive_stats).length
        = kOutputPrefixCells.length + 1 + kCounterCount
    ∧ (MakeParsedStatsRow model_name model_stats serial_number drive_stats).getD 4 ""
        = optDateToString drive_stats.failure_date
    ∧ ∀ i, i < kCounterCount →
        (MakeParsedStatsRow model_name model_stats serial_number drive_stats).getD (5 + i) ""
          = (if drive_stats.drive_day.getD i 0 = 0 then ""
             else toString (drive_stats.drive_day.getD i 0)) := by
  refine ⟨?_, rfl, ?_⟩
  · simp [MakeParsedStatsRow, kOutputPrefixCells, h]
    omega
  · intro i hi
    unfold MakeParsedStatsRow
    rw [getD_five_append]
    have hlen : i < drive_stats.drive_day.length := by rw [h]; exact hi
    exact getD_map_cell drive_stats.drive_day _ i hlen ""

theorem c4_amended_witness :
    (MakeParsedStatsRow "m" msC4 "s" dsC4).length = kOutputPrefixCells.length + 1 + kCounterCount
    ∧ (MakeParsedStatsRow "m" msC4 "s" dsC4).getD 4 "" = optDateToString dsC4.failure_date
    ∧ ∀ i, i < kCounterCount →
        (MakeParsedStatsRow "m" msC4 "s" dsC4).getD (5 + i) ""
          = (if dsC4.drive_day.getD i 0 = 0 then "" else toString (dsC4.drive_day.getD i 0)) :=
  c4_amended "m" msC4 "s" dsC4 (by decide)

/-- Claim C5 (confirmed): a record whose raw capacity reading is negative,
below 40 GB or above 40 TB leaves the model's `capacity_bytes` unchanged
when folded; a plausible reading replaces the stored value exactly when it
strictly exceeds it (an absent stored value counting as smaller). -/
theorem c5_capacity (map : ModelMap) (row : RawRow) :
    ((row.capacity_bytes < 0 ∨ row.capacity_bytes < (kMinCapacityBytes : Int)
        ∨ (kMaxCapacityBytes : Int) < row.capacity_bytes) →
      capacityAt (foldRow map row).1 (ReadId row.model)
        = some (((alFind? (ReadId row.model) map).getD ModelStats.empty).capacity_bytes))
    ∧ (∀ c : Nat, row.capacity_bytes = (c : Int) →
        kMinCapacityBytes ≤ c → c ≤ kMaxCapacityBytes →
        capacityAt (foldRow map row).1 (ReadId row.model)
          = some (if natGtOpt c (((alFind? (ReadId row.model) map).getD
                ModelStats.empty).capacity_bytes)
              then some c
              else ((alFind? (ReadId row.model) map).getD
                ModelStats.empty).capacity_bytes)) := by
  constructor
  · intro h
    have hrc : ReadCapacity row.capacity_bytes = none := by
      unfold ReadCapacity
      by_cases hneg : row.capacity_bytes < 0
      · rw [if_pos hneg]
      · rw [if_neg hneg]
        have hcond : row.capacity_bytes.toNat < kMinCapacityBytes
            ∨ row.capacity_bytes.toNat > kMaxCapacityBytes := by
          rcases h with h1 | h2 | h3
          · exact absurd h1 hneg
          · left
            omega
          · right
            omega
        rw [if_pos hcond]
    rw [capacityAt_foldRow map row, hrc]
  · intro c hceq hmin hmax
    have hrc : ReadCapacity row.capacity_bytes = some c := by
      unfold ReadCapacity
      rw [hceq]
      have h0 : ¬((c : Int) < 0) := by omega
      rw [if_neg h0]
      have hcond : ¬(((c : Int)).toNat < kMinCapacityBytes
          ∨ ((c : Int)).toNat > kMaxCapacityBytes) := by omega
      rw [if_neg hcond]
      simp
    rw [capacityAt_foldRow map row, hrc]
    by_cases hg : natGtOpt c (((alFind? (ReadId row.model) map).getD
        ModelStats.empty).capacity_bytes) = true <;>
      simp [UpdateCapacity, hg]

theorem c5_capacity_witness :
    capacityAt (foldRow [] rowC5a).1 "m" = some none
    ∧ capacityAt (foldRow [] rowC5b).1 "m" = some (some 4000000000000) := by
  constructor
  · exact (c5_capacity [] rowC5a).1 (Or.inl (by decide))
  · exact (c5_capacity [] rowC5b).2 4000000000000 rfl (by decide) (by decide)

/-- Claim C6 (confirmed): for every model present in `other`, after the
merge the model's capacity in the accumulator is the maximum of the
accumulator's previous capacity (absent if the model was new) and
`other`'s capacity, an absent optional comparing below every present
value. -/
theorem c6_capacity_merge (A B : ModelMap) (hB : (B.map Prod.fst).Nodup) (model : String)
    (bs : ModelStats) (h : alFind? model B = some bs) :
    capacityAt (MergeParsedStats A B) model
      = some (maxOptNat (((alFind? model A).getD ModelStats.empty).capacity_bytes)
          bs.capacity_bytes) := by
  rw [capacityAt_merge A B hB, h]
  simp [optCapMax_eq_maxOptNat]

theorem c6_capacity_merge_witness :
    capacityAt (MergeParsedStats storeC6A storeC6B) "m"
      = some (maxOptNat (((alFind? "m" storeC6A).getD ModelStats.empty).capacity_bytes)
          msC6B.capacity_bytes) :=
  c6_capacity_merge storeC6A storeC6B (by decide) "m" msC6B rfl

/-- Claim C7 (confirmed): a drive's optional initial power-on-hour is set
exactly once, at creation of its `DriveStats`: folding a record preserves
the value of every drive already present and seeds a newly created drive
from the record; merging preserves the accumulator's value for every drive
it already owns and seeds a drive newly created by the merge from
`other`. -/
theorem c7_poh (map : ModelMap) (row : RawRow) (A B : ModelMap) (hB : WFmap B)
    (model serial : String) :
    (∀ d : DriveStats, driveAt map model serial = some d →
      pohAt (foldRow map row).1 model serial = some d.initial_power_on_hour)
    ∧ (driveAt map (ReadId row.model) (ReadId row.serial) = none →
      pohAt (foldRow map row).1 (ReadId row.model) (ReadId row.serial)
        = some row.power_on_hour)
    ∧ (∀ d : DriveStats, driveAt A model serial = some d →
      pohAt (MergeParsedStats A B) model serial = some d.initial_power_on_hour)
    ∧ (∀ bd : DriveStats, driveAt A model serial = none →
      driveAt B model serial = some bd →
      pohAt (MergeParsedStats A B) model serial = some bd.initial_power_on_hour) := by
  refine ⟨?_, ?_, ?_, ?_⟩
  · intro d hd
    rw [pohAt_foldRow]
    by_cases hk : model = ReadId row.model ∧ serial = ReadId row.serial
    · rw [if_pos hk, hd]
      simp
    · rw [if_neg hk]
      simp [pohAt, hd]
  · intro h0
    rw [pohAt_foldRow, if_pos ⟨rfl, rfl⟩, h0]
    simp [DriveStats.mk0]
  · intro d hd
    rw [pohAt_merge_obs A B hB, hd]
  · intro bd h0 hbd
    rw [pohAt_merge_obs A B hB, h0, hbd]

theorem c7_poh_witness :
    pohAt (foldRow mapC7 rowC7).1 "m" "s" = some (some 5)
    ∧ pohAt (MergeParsedStats mapC7 storeC7B) "m" "s" = some (some 5)
    ∧ pohAt (MergeParsedStats [] storeC7B) "m" "s" = some (some 200) := by
  refine ⟨?_, ?_, ?_⟩
  · exact (c7_poh mapC7 rowC7 mapC7 storeC7B (by decide) "m" "s").1 dsC7 rfl
  · exact (c7_poh mapC7 rowC7 mapC7 storeC7B (by decide) "m" "s").2.2.1 dsC7 rfl
  · exact (c7_poh mapC7 rowC7 [] storeC7B (by decide) "m" "s").2.2.2 dsC7B rfl rfl

/-- Claim C8, counterexample: the canonicalization used for aggregate keys
removes every whitespace character, interior ones included, rather than
trimming only leading and trailing whitespace: the raw model `" A B "`
is keyed as `"AB"`, not as the trimmed `"A B"`, and folding such a row
creates the key `"AB"` in the aggregate while no key `"A B"` exists. -/
theorem c8_counterexample :
    ReadId " A B " = "AB"
    ∧ specTrim " A B " = "A B"
    ∧ ReadId " A B " ≠ specTrim " A B "
    ∧ alFind? "A B" (foldRow [] rowC8).1 = none
    ∧ (alFind? "AB" (foldRow [] rowC8).1).isSome = true := by
  decide

/-- Claim C8, amended: the model and serial strings used as aggregate keys
equal the raw field values with every whitespace character removed
(non-whitespace characters preserved in order); equivalently, the key is
the whitespace-removal of the trimmed value, and it contains no whitespace
character. -/
theorem c8_amended (s : String) :
    (RemoveSpaces s).data = s.data.filter (fun ch => !isSpaceChar ch)
    ∧ RemoveSpaces (specTrim s) = RemoveSpaces s
    ∧ ∀ ch ∈ (RemoveSpaces s).data, isSpaceChar ch = false := by
  have hpq : ∀ a : Char, isSpaceChar a = true → (!isSpaceChar a) = false := by
    intro a ha
    simp [ha]
  refine ⟨rfl, ?_, ?_⟩
  · unfold RemoveSpaces specTrim
    congr 1
    show (((s.data.dropWhile isSpaceChar).reverse.dropWhile isSpaceChar).reverse).filter
          (fun ch => !isSpaceChar ch)
        = s.data.filter (fun ch => !isSpaceChar ch)
    rw [List.filter_reverse, filter_dropWhile_eq hpq, List.filter_reverse,
      List.reverse_reverse, filter_dropWhile_eq hpq]
  · intro ch hch
    rw [show (RemoveSpaces s).data = s.data.filter (fun c => !isSpaceChar c) from rfl] at hch
    have h2 := (List.mem_filter.mp hch).2
    simpa using h2

theorem c8_amended_witness :
    (RemoveSpaces " a b ").data = " a b ".data.filter (fun ch => !isSpaceChar ch)
    ∧ RemoveSpaces (specTrim " a b ") = RemoveSpaces " a b "
    ∧ ∀ ch ∈ (RemoveSpaces " a b ").data, isSpaceChar ch = false :=
  c8_amended " a b "

/-- Claim C9 (confirmed): over any number of calls, the dispenser hands out
exactly the `.csv` paths of the discovery sequence, in order, one per call,
and the empty path on every call after the sequence is exhausted; when the
discovered paths are distinct, no path is ever delivered twice (the
non-empty results are pairwise distinct). -/
theorem c9_work_queue (files : List String) (n : Nat) (hnd : files.Nodup) :
    dispenseTrace files n
        = (files.filter isCsvPath).take n
          ++ List.replicate (n - (files.filter isCsvPath).length) ""
    ∧ ((dispenseTrace files n).filter (fun p => p ≠ "")).Nodup := by
  refine ⟨dispenseTrace_eq files n, ?_⟩
  rw [dispenseTrace_eq files n, List.filter_append]
  have h1 : ((files.filter isCsvPath).take n).filter (fun p => p ≠ "")
      = (files.filter isCsvPath).take n := by
    apply List.filter_eq_self.mpr
    intro a ha
    have hmem : a ∈ files.filter isCsvPath := (List.take_sublist n _).subset ha
    have hcsv : isCsvPath a = true := (List.mem_filter.mp hmem).2
    have hne : a ≠ "" := by
      intro he
      rw [he, isCsvPath_empty_false] at hcsv
      exact Bool.false_ne_true hcsv
    simpa using hne
  have h2 : (List.replicate (n - (files.filter isCsvPath).length) "").filter
      (fun p => p ≠ "") = [] :=
    filter_replicate_empty (by simp) _
  rw [h1, h2, List.append_nil]
  exact (List.take_sublist n _).nodup (hnd.filter _)

theorem c9_work_queue_witness :
    dispenseTrace filesC9 4
        = (filesC9.filter isCsvPath).take 4
          ++ List.replicate (4 - (filesC9.filter isCsvPath).length) ""
    ∧ ((dispenseTrace filesC9 4).filter (fun p => p ≠ "")).Nodup :=
  c9_work_queue filesC9 4 (by decide)

/-- Claim C10 (confirmed): rejecting a row for an invalid date is not
atomic.  When the date check fails, the row's exception escapes, yet the
aggregate already contains the model entry with the row's plausible
capacity update applied and the drive entry seeded with the row's initial
power-on-hour if it was new; the drive's counters and failure state are
exactly what they were before the row (all zero / absent for a new drive),
since only the counter increment and the failure recording are skipped. -/
theorem c10_nonatomic (map : ModelMap) (row : RawRow)
    (h : exceptIsError (ReadDate row.year row.month row.day) = true) :
    (foldRow map row).2.isSome = true
    ∧ capacityAt (foldRow map row).1 (ReadId row.model) =
        some (match ReadCapacity row.capacity_bytes with
              | none => ((alFind? (ReadId row.model) map).getD ModelStats.empty).capacity_bytes
              | some c =>
                (UpdateCapacity ((alFind? (ReadId row.model) map).getD ModelStats.empty)
                  c).capacity_bytes)
    ∧ driveAt (foldRow map row).1 (ReadId row.model) (ReadId row.serial)
        = some ((driveAt map (ReadId row.model) (ReadId row.serial)).getD
            (DriveStats.mk0 row.power_on_hour)) := by
  cases hd : ReadDate row.year row.month row.day with
  | ok date =>
    rw [hd] at h
    simp [exceptIsError] at h
  | error e =>
    refine ⟨?_, capacityAt_foldRow map row, ?_⟩
    · simp [foldRow, hd]
    · rw [show (foldRow map row).1 = foldPre map row from by simp [foldRow, hd]]
      rw [driveAt_foldPre, if_pos ⟨rfl, rfl⟩]

theorem c10_nonatomic_witness :
    exceptIsError (ReadDate rowC10.year rowC10.month rowC10.day) = true
    ∧ (foldRow [] rowC10).2.isSome = true
    ∧ capacityAt (foldRow [] rowC10).1 "m" = some (some 4000787030016)
    ∧ driveAt (foldRow [] rowC10).1 "m" "s" = some (DriveStats.mk0 (some 42)) := by
  refine ⟨by decide, ?_, ?_, ?_⟩
  · exact (c10_nonatomic [] rowC10 (by decide)).1
  · exact (c10_nonatomic [] rowC10 (by decide)).2.1
  · exact (c10_nonatomic [] rowC10 (by decide)).2.2

end BB
